import Mathlib

/-!
Verification development for the `conformalizer` repository (`src/script.py`).

The script manipulates TOML documents with `tomlkit`.  We embed the value
model shallowly: a TOML value is a string, a boolean, a table (an ordered
association list of string keys, keys unique in parsed documents), an array,
or an array of tables.  Python dictionary/`tomlkit` container operations are
embedded as pure functions threading the mutated containers explicitly:
mutating a sub-table obtained by aliasing and the parent observing the
mutation is modelled by writing the mutated sub-table back at the same key
(`setKey` replaces in place, so order is preserved exactly as `tomlkit`
preserves it).

File input and output is abstracted by `FileState`: a file is missing,
malformed (its text does not parse), or holds a parsed document.  Writing
`dumps doc` to a file followed by re-parsing yields `doc` again (round-trip
stability of the external TOML library), so a write is modelled by storing
the document itself.
-/

namespace Conformalize

/-- TOML value tree: scalar strings and booleans, tables as ordered key-value
lists, arrays, and arrays of tables (whose elements are table values). -/
inductive Value where
  | str (s : String)
  | bool (b : Bool)
  | table (kvs : List (String × Value))
  | arr (xs : List Value)
  | aot (ts : List Value)
deriving Repr

mutual

/-- Structural equality test on values. -/
def beqValue : Value → Value → Bool
  | .str a, .str b => a == b
  | .bool a, .bool b => a == b
  | .table a, .table b => beqKVs a b
  | .arr a, .arr b => beqVals a b
  | .aot a, .aot b => beqVals a b
  | _, _ => false

/-- Structural equality test on value lists. -/
def beqVals : List Value → List Value → Bool
  | [], [] => true
  | x :: xs, y :: ys => beqValue x y && beqVals xs ys
  | _, _ => false

/-- Structural equality test on key-value lists. -/
def beqKVs : List (String × Value) → List (String × Value) → Bool
  | [], [] => true
  | (k, v) :: xs, (l, w) :: ys => k == l && beqValue v w && beqKVs xs ys
  | _, _ => false

end

mutual

theorem beqValue_iff : ∀ a b, beqValue a b = true ↔ a = b
  | .str a, .str b => by simp [beqValue]
  | .bool a, .bool b => by simp [beqValue]
  | .table a, .table b => by
      simp only [beqValue, Value.table.injEq]; exact beqKVs_iff a b
  | .arr a, .arr b => by
      simp only [beqValue, Value.arr.injEq]; exact beqVals_iff a b
  | .aot a, .aot b => by
      simp only [beqValue, Value.aot.injEq]; exact beqVals_iff a b
  | .str _, .bool _ => by simp [beqValue]
  | .str _, .table _ => by simp [beqValue]
  | .str _, .arr _ => by simp [beqValue]
  | .str _, .aot _ => by simp [beqValue]
  | .bool _, .str _ => by simp [beqValue]
  | .bool _, .table _ => by simp [beqValue]
  | .bool _, .arr _ => by simp [beqValue]
  | .bool _, .aot _ => by simp [beqValue]
  | .table _, .str _ => by simp [beqValue]
  | .table _, .bool _ => by simp [beqValue]
  | .table _, .arr _ => by simp [beqValue]
  | .table _, .aot _ => by simp [beqValue]
  | .arr _, .str _ => by simp [beqValue]
  | .arr _, .bool _ => by simp [beqValue]
  | .arr _, .table _ => by simp [beqValue]
  | .arr _, .aot _ => by simp [beqValue]
  | .aot _, .str _ => by simp [beqValue]
  | .aot _, .bool _ => by simp [beqValue]
  | .aot _, .table _ => by simp [beqValue]
  | .aot _, .arr _ => by simp [beqValue]

theorem beqVals_iff : ∀ a b, beqVals a b = true ↔ a = b
  | [], [] => by simp [beqVals]
  | x :: xs, y :: ys => by
      simp only [beqVals, Bool.and_eq_true, List.cons.injEq]
      exact and_congr (beqValue_iff x y) (beqVals_iff xs ys)
  | [], _ :: _ => by simp [beqVals]
  | _ :: _, [] => by simp [beqVals]

theorem beqKVs_iff : ∀ a b, beqKVs a b = true ↔ a = b
  | [], [] => by simp [beqKVs]
  | (k, v) :: xs, (l, w) :: ys => by
      simp only [beqKVs, Bool.and_eq_true, List.cons.injEq, Prod.mk.injEq,
        beq_iff_eq]
      rw [beqValue_iff v w, beqKVs_iff xs ys]
  | [], _ :: _ => by simp [beqKVs]
  | _ :: _, [] => by simp [beqKVs]

end

instance : DecidableEq Value := fun a b =>
  decidable_of_iff (beqValue a b = true) (beqValue_iff a b)


instance {e a : Type} [DecidableEq e] [DecidableEq a] : DecidableEq (Except e a) := fun x y =>
  match x, y with
  | .error x1, .error y1 =>
    if h : x1 = y1 then isTrue (by rw [h]) else isFalse (by simp [h])
  | .ok x1, .ok y1 =>
    if h : x1 = y1 then isTrue (by rw [h]) else isFalse (by simp [h])
  | .error _, .ok _ => isFalse (by simp)
  | .ok _, .error _ => isFalse (by simp)

/-- A table body (also the type of a whole TOML document, which `tomlkit`
treats as its root container). -/
abbrev Tbl := List (String × Value)

/-- Lookup of a key in a table: the first binding wins (keys are unique in
parsed documents). -/
def lookup : Tbl → String → Option Value
  | [], _ => none
  | (k, v) :: rest, key => if k = key then some v else lookup rest key

/-- Assignment `t[key] = val` as in a Python dict / `tomlkit` table: replace
the value at an existing key in place, otherwise append the binding at the
end. -/
def setKey : Tbl → String → Value → Tbl
  | [], key, val => [(key, val)]
  | (k, v) :: rest, key, val =>
    if k = key then (k, val) :: rest else (k, v) :: setKey rest key val

/-- Python `dict.setdefault` / `tomlkit` `Container.setdefault`: return the
existing value if the key is present, otherwise insert the default at the end
and return it, together with the (possibly extended) container. -/
def setdefault (t : Tbl) (key : String) (dflt : Value) : Value × Tbl :=
  match lookup t key with
  | some v => (v, t)
  | none => (dflt, t ++ [(key, dflt)])

/-- Errors of the script, named as in the spec taxonomy: `parseError` is the
spec's ConfigParseError (tomlkit parse failure), `typeMismatch` its
TypeMismatchError (`ensure_class` failure), `keyNotFound` is tomlkit's
NonExistentKey from a bare item lookup, and `malformedInput` the spec's
MalformedInputError (tuple unpacking of a split CLI string). -/
inductive Err where
  | parseError
  | typeMismatch
  | keyNotFound (key : String)
  | malformedInput
deriving DecidableEq, Repr

/-- Embeds `_get_table`: `ensure_class(obj.setdefault(key, table()), Table)`.
Returns the fetched (or freshly inserted empty) sub-table together with the
updated parent; fails with a type mismatch when the existing value is not a
table. -/
def getTable (t : Tbl) (key : String) : Except Err (Tbl × Tbl) :=
  match setdefault t key (.table []) with
  | (.table sub, t1) => .ok (sub, t1)
  | _ => .error .typeMismatch

/-- Embeds `_get_array`: `ensure_class(obj.setdefault(key, array()), Array)`. -/
def getArray (t : Tbl) (key : String) : Except Err (List Value × Tbl) :=
  match setdefault t key (.arr []) with
  | (.arr xs, t1) => .ok (xs, t1)
  | _ => .error .typeMismatch

/-- Embeds `_get_aot`: `ensure_class(obj.setdefault(key, aot()), AoT)`. -/
def getAoT (t : Tbl) (key : String) : Except Err (List Value × Tbl) :=
  match setdefault t key (.aot []) with
  | (.aot xs, t1) => .ok (xs, t1)
  | _ => .error .typeMismatch

/-- Abstract state of one file on disk: absent, present but unparsable, or
present with text that parses to the given document. -/
inductive FileState where
  | missing
  | malformed
  | content (d : Tbl)
deriving DecidableEq, Repr

/-- Embeds `_get_doc`: `parse(path.read_text())`, catching only
`FileNotFoundError` (which yields a fresh empty `document()`); a parse
failure for an existing file propagates. -/
def getDoc : FileState → Except Err Tbl
  | .missing => .ok []
  | .malformed => .error .parseError
  | .content d => .ok d

/-- Embeds the pre-yield part of `_yield_pyproject_toml` (the baseline
normalization): `bld_sys = _get_table(doc, "build-system")`, set its
`build-backend` and `requires` fields, `project = _get_table(doc,
"project")`, set `requires-python`.  In-place mutation of the fetched
sub-tables is modelled by writing them back at their keys. -/
def baseline (version : String) (doc : Tbl) : Except Err Tbl := do
  let (bldSys, doc) ← getTable doc "build-system"
  let bldSys := setKey bldSys "build-backend" (.str "uv_build")
  let bldSys := setKey bldSys "requires" (.arr [.str "uv_build"])
  let doc := setKey doc "build-system" (.table bldSys)
  let (project, doc) ← getTable doc "project"
  let project := setKey project "requires-python" (.str (">= " ++ version))
  let doc := setKey doc "project" (.table project)
  return doc

/-- Result of one scoped-write session: the final state of the target file,
whether a write occurred, and the propagated error if any. -/
structure Outcome where
  fs : FileState
  wrote : Bool
  error : Option Err
deriving DecidableEq, Repr

/-- Embeds the scope-exit part of `_yield_pyproject_toml`: re-read the file
fresh from disk, compare with the in-memory document, and overwrite the file
with the serialized document only when they differ. -/
def sessionExit (fs : FileState) (doc : Tbl) : Outcome :=
  match getDoc fs with
  | .ok fresh => if doc = fresh then ⟨fs, false, none⟩ else ⟨.content doc, true, none⟩
  | .error e => ⟨fs, false, some e⟩

/-- Runs the caller-supplied recipe body on the baseline-normalized document,
then the scope-exit compare-and-write; an error raised in the body aborts the
session before any write (the `@contextmanager` generator has no `finally`,
so the code after `yield` does not run when the body throws). -/
def sessionRun (body : Tbl → Except Err Tbl) (fs : FileState) (doc : Tbl) : Outcome :=
  match body doc with
  | .error e => ⟨fs, false, some e⟩
  | .ok doc => sessionExit fs doc

/-- Embeds `_yield_pyproject_toml` applied to a recipe body: load the
document, apply the baseline normalization, run the body, and on clean
completion compare and conditionally write. -/
def runPyprojectSession (version : String) (body : Tbl → Except Err Tbl)
    (fs : FileState) : Outcome :=
  match getDoc fs with
  | .error e => ⟨fs, false, some e⟩
  | .ok doc =>
    match baseline version doc with
    | .error e => ⟨fs, false, some e⟩
    | .ok doc => sessionRun body fs doc

/-- Embeds the body of `_add_pyproject_dependency_groups_dev`. -/
def addDependencyGroupsDev (doc : Tbl) : Except Err Tbl := do
  let (depGrps, doc) ← getTable doc "dependency-groups"
  let (dev, depGrps) ← getArray depGrps "dev"
  let dev := if Value.str "dycw-utilities[test]" ∈ dev then dev
    else dev ++ [Value.str "dycw-utilities[test]"]
  let dev := if Value.str "rich" ∈ dev then dev else dev ++ [Value.str "rich"]
  let depGrps := setKey depGrps "dev" (.arr dev)
  return setKey doc "dependency-groups" (.table depGrps)

/-- Embeds the body of `_add_pyproject_project_name`. -/
def addProjectName (name : String) (doc : Tbl) : Except Err Tbl := do
  let (project, doc) ← getTable doc "project"
  let project := setKey project "name" (.str name)
  return setKey doc "project" (.table project)

/-- Embeds the body of `_add_pyproject_project_optional_dependencies_scripts`. -/
def addOptionalDependenciesScripts (doc : Tbl) : Except Err Tbl := do
  let (project, doc) ← getTable doc "project"
  let (optDeps, project) ← getTable project "optional-dependencies"
  let (scripts, optDeps) ← getArray optDeps "scripts"
  let scripts := if Value.str "click >=8.3.1" ∈ scripts then scripts
    else scripts ++ [Value.str "click >=8.3.1"]
  let optDeps := setKey optDeps "scripts" (.arr scripts)
  let project := setKey project "optional-dependencies" (.table optDeps)
  return setKey doc "project" (.table project)

/-- Candidate index table built by `_add_pyproject_uv_index`:
`index["explicit"] = True; index["name"] = name; index["url"] = url`. -/
def uvIndexTable (name url : String) : Value :=
  .table [("explicit", .bool true), ("name", .str name), ("url", .str url)]

/-- Embeds the body of `_add_pyproject_uv_index`: navigate `tool.uv.index`
(an array of tables) and append the candidate table only when no deeply
equal table is already present. -/
def addUvIndex (name url : String) (doc : Tbl) : Except Err Tbl := do
  let (tool, doc) ← getTable doc "tool"
  let (uv, tool) ← getTable tool "uv"
  let (indexes, uv) ← getAoT uv "index"
  let index := uvIndexTable name url
  let indexes := if index ∈ indexes then indexes else indexes ++ [index]
  let uv := setKey uv "index" (.aot indexes)
  let tool := setKey tool "uv" (.table uv)
  return setKey doc "tool" (.table tool)

/-- The catalog of pyproject mutation recipes selectable from `main`. -/
inductive Recipe where
  | pyproject
  | dependencyGroupsDev
  | projectName (name : String)
  | optionalDependenciesScripts
  | uvIndex (name url : String)
deriving DecidableEq, Repr

/-- Body each recipe runs inside its `_yield_pyproject_toml` session;
`_add_pyproject` has an empty body (`...`). -/
def Recipe.body : Recipe → Tbl → Except Err Tbl
  | .pyproject => fun doc => .ok doc
  | .dependencyGroupsDev => addDependencyGroupsDev
  | .projectName n => addProjectName n
  | .optionalDependenciesScripts => addOptionalDependenciesScripts
  | .uvIndex n u => addUvIndex n u

/-- A recipe as a whole in-memory document transformation: the session's
baseline normalization followed by the recipe body. -/
def recipeApply (r : Recipe) (version : String) (doc : Tbl) : Except Err Tbl :=
  baseline version doc >>= r.body

/-- One full `_add_pyproject*` call: its session run against the current
state of `pyproject.toml`. -/
def runRecipe (version : String) (r : Recipe) (fs : FileState) : Outcome :=
  runPyprojectSession version r.body fs

/-- Embeds the pre-yield part of `_yield_ruff_toml`, including the bare item
lookup `lint["ingore"]`, which raises a key-not-found error exactly when the
lint table has no key `"ingore"` at that point. -/
def ruffPreYield (version : String) (doc : Tbl) : Except Err Tbl := do
  let doc := setKey doc "target-version" (.str ("py" ++ version.replace "." ""))
  let doc := setKey doc "unsafe-fixes" (.bool true)
  let (fmt, doc) ← getTable doc "format"
  let fmt := setKey fmt "preview" (.bool true)
  let fmt := setKey fmt "skip-magic-trailing-comma" (.bool true)
  let doc := setKey doc "format" (.table fmt)
  let (lint, doc) ← getTable doc "lint"
  let lint := setKey lint "explicit-preview-rules" (.bool true)
  let (_fx, lint) ← getArray lint "fixable"
  let lint := setKey lint "fixable" (.arr [.str "ALL"])
  match lookup lint "ingore" with
  | none => .error (.keyNotFound "ingore")
  | some _ =>
    let doc := setKey doc "lint" (.table lint)
    let (project, doc) ← getTable doc "project"
    let project := setKey project "requires-python" (.str (">= " ++ version))
    return setKey doc "project" (.table project)

/-- Result of one ruff session: final states of both files (`_yield_ruff_toml`
reads `ruff.toml` but its write statement targets `_PYPROJECT_TOML`), whether
a write occurred, and the propagated error if any. -/
structure RuffOutcome where
  ruffFs : FileState
  pyprojectFs : FileState
  wrote : Bool
  error : Option Err
deriving DecidableEq, Repr

/-- Embeds `_yield_ruff_toml` applied to a body: load `ruff.toml`, run the
pre-yield mutations, run the body, and on clean completion compare the
document against a fresh re-read of `ruff.toml`; when they differ, the
serialized document is written to `_PYPROJECT_TOML` (source line
`_PYPROJECT_TOML.write_text(dumps(doc))`), not to `ruff.toml`. -/
def runRuffSession (version : String) (body : Tbl → Except Err Tbl)
    (ruffFs pyprojectFs : FileState) : RuffOutcome :=
  match getDoc ruffFs with
  | .error e => ⟨ruffFs, pyprojectFs, false, some e⟩
  | .ok doc =>
    match ruffPreYield version doc with
    | .error e => ⟨ruffFs, pyprojectFs, false, some e⟩
    | .ok doc =>
      match body doc with
      | .error e => ⟨ruffFs, pyprojectFs, false, some e⟩
      | .ok doc =>
        match getDoc ruffFs with
        | .ok fresh =>
          if doc = fresh then ⟨ruffFs, pyprojectFs, false, none⟩
          else ⟨ruffFs, .content doc, true, none⟩
        | .error e => ⟨ruffFs, pyprojectFs, false, some e⟩

/-- Embeds the `Settings` class (CLI flags with their defaults). -/
structure Settings where
  version : String := "3.14"
  pyproject : Bool := false
  pyproject__dependency_groups__dev : Bool := false
  pyproject__project__name : Option String := none
  pyproject__project__optional_dependencies__scripts : Bool := false
  pyproject__tool__uv__indexes : Option String := none
  ruff : Bool := false
  dry_run : Bool := false

/-- An action `main` can trigger: a pyproject session running a recipe, or a
ruff session (present in the action vocabulary so that its absence from
`main` is expressible). -/
inductive MainAction where
  | pyprojectSession (r : Recipe)
  | ruffSession
deriving DecidableEq, Repr

/-- Embeds the `for index in indexes.split("|")` loop of `main`: each entry
is split on a comma and unpacked into `name, url`; an entry that does not
split into exactly two parts raises at that point, after the earlier
sessions already ran. -/
def mainIndexLoop (acc : List MainAction) : List String → List MainAction × Option Err
  | [] => (acc, none)
  | idx :: rest =>
    match idx.splitOn "," with
    | [n, u] => mainIndexLoop (acc ++ [.pyprojectSession (.uvIndex n u)]) rest
    | _ => (acc, some .malformedInput)

/-- Embeds the dispatch of `main`: the sequence of sessions it runs for the
given settings, and the error raised while parsing the index flag if any.
`main` checks `dry_run`, `pyproject`, `pyproject__dependency_groups__dev`,
`pyproject__project__name`, `pyproject__project__optional_dependencies__scripts`
and `pyproject__tool__uv__indexes`, in that order; it has no branch reading
the `ruff` flag. -/
def mainActions (s : Settings) : List MainAction × Option Err :=
  if s.dry_run then ([], none)
  else
    let acts := (if s.pyproject then [MainAction.pyprojectSession .pyproject] else [])
      ++ (if s.pyproject__dependency_groups__dev then
            [MainAction.pyprojectSession .dependencyGroupsDev] else [])
      ++ (match s.pyproject__project__name with
          | some n => [MainAction.pyprojectSession (.projectName n)]
          | none => [])
      ++ (if s.pyproject__project__optional_dependencies__scripts then
            [MainAction.pyprojectSession .optionalDependenciesScripts] else [])
    match s.pyproject__tool__uv__indexes with
    | none => (acts, none)
    | some str => mainIndexLoop acts (str.splitOn "|")

/-! Basic lemmas about `lookup`, `setKey` and `setdefault`. -/

theorem lookup_setKey_self (t : Tbl) (k : String) (v : Value) :
    lookup (setKey t k v) k = some v := by
  induction t with
  | nil => simp [setKey, lookup]
  | cons hd tl ih =>
    obtain ⟨k1, v1⟩ := hd
    by_cases h : k1 = k
    · simp [setKey, lookup, h]
    · simp [setKey, lookup, h, ih]

theorem lookup_setKey_ne (t : Tbl) (k k2 : String) (v : Value) (h : k ≠ k2) :
    lookup (setKey t k v) k2 = lookup t k2 := by
  induction t with
  | nil => simp [setKey, lookup, h]
  | cons hd tl ih =>
    obtain ⟨k1, v1⟩ := hd
    by_cases h1 : k1 = k
    · subst h1; simp [setKey, lookup, h, ih]
    · simp [setKey, lookup, h1, ih]

theorem setKey_self (t : Tbl) (k : String) (v : Value) (h : lookup t k = some v) :
    setKey t k v = t := by
  induction t with
  | nil => simp [lookup] at h
  | cons hd tl ih =>
    obtain ⟨k1, v1⟩ := hd
    by_cases h1 : k1 = k
    · subst h1
      simp [lookup] at h
      simp [setKey, h]
    · simp [lookup, h1] at h
      simp [setKey, h1, ih h]

theorem lookup_append_self (t : Tbl) (k : String) (v : Value)
    (h : lookup t k = none) : lookup (t ++ [(k, v)]) k = some v := by
  induction t with
  | nil => simp [lookup]
  | cons hd tl ih =>
    obtain ⟨k1, v1⟩ := hd
    by_cases h1 : k1 = k
    · simp [lookup, h1] at h
    · simp [lookup, h1] at h ⊢
      exact ih h

theorem lookup_append_ne (t : Tbl) (k k2 : String) (v : Value) (h : k ≠ k2) :
    lookup (t ++ [(k, v)]) k2 = lookup t k2 := by
  induction t with
  | nil => simp [lookup, h]
  | cons hd tl ih =>
    obtain ⟨k1, v1⟩ := hd
    by_cases h1 : k1 = k2
    · simp [lookup, h1]
    · simp [lookup, h1, ih]

/-! Characterization of the three path accessors. -/

theorem getTable_present (t : Tbl) (k : String) (s : Tbl)
    (h : lookup t k = some (.table s)) : getTable t k = .ok (s, t) := by
  simp [getTable, setdefault, h]

theorem getTable_absent (t : Tbl) (k : String) (h : lookup t k = none) :
    getTable t k = .ok ([], t ++ [(k, .table [])]) := by
  simp [getTable, setdefault, h]

theorem getTable_mismatch (t : Tbl) (k : String) (v : Value)
    (h : lookup t k = some v) (hv : ∀ s, v ≠ .table s) :
    getTable t k = .error .typeMismatch := by
  cases v with
  | table s => exact absurd rfl (hv s)
  | str s => simp [getTable, setdefault, h]
  | bool b => simp [getTable, setdefault, h]
  | arr xs => simp [getTable, setdefault, h]
  | aot ts => simp [getTable, setdefault, h]

theorem getTable_cases (t : Tbl) (k : String) (s t1 : Tbl)
    (h : getTable t k = .ok (s, t1)) :
    (lookup t k = some (.table s) ∧ t1 = t) ∨
      (lookup t k = none ∧ s = [] ∧ t1 = t ++ [(k, .table [])]) := by
  unfold getTable setdefault at h
  cases hl : lookup t k with
  | none =>
    simp [hl] at h
    exact Or.inr ⟨rfl, h.1, h.2.symm⟩
  | some v =>
    cases v with
    | table s2 => simp [hl] at h; exact Or.inl ⟨by rw [h.1], h.2.symm⟩
    | str s2 => simp [hl] at h
    | bool b => simp [hl] at h
    | arr xs => simp [hl] at h
    | aot ts => simp [hl] at h

theorem getTable_error (t : Tbl) (k : String) (e : Err)
    (h : getTable t k = .error e) : e = .typeMismatch := by
  unfold getTable setdefault at h
  cases hl : lookup t k with
  | none => simp [hl] at h
  | some v => cases v <;> simp [hl] at h <;> exact h.symm

theorem getArray_present (t : Tbl) (k : String) (xs : List Value)
    (h : lookup t k = some (.arr xs)) : getArray t k = .ok (xs, t) := by
  simp [getArray, setdefault, h]

theorem getArray_absent (t : Tbl) (k : String) (h : lookup t k = none) :
    getArray t k = .ok ([], t ++ [(k, .arr [])]) := by
  simp [getArray, setdefault, h]

theorem getArray_mismatch (t : Tbl) (k : String) (v : Value)
    (h : lookup t k = some v) (hv : ∀ xs, v ≠ .arr xs) :
    getArray t k = .error .typeMismatch := by
  cases v with
  | arr xs => exact absurd rfl (hv xs)
  | str s => simp [getArray, setdefault, h]
  | bool b => simp [getArray, setdefault, h]
  | table s => simp [getArray, setdefault, h]
  | aot ts => simp [getArray, setdefault, h]

theorem getArray_cases (t : Tbl) (k : String) (xs : List Value) (t1 : Tbl)
    (h : getArray t k = .ok (xs, t1)) :
    (lookup t k = some (.arr xs) ∧ t1 = t) ∨
      (lookup t k = none ∧ xs = [] ∧ t1 = t ++ [(k, .arr [])]) := by
  unfold getArray setdefault at h
  cases hl : lookup t k with
  | none =>
    simp [hl] at h
    exact Or.inr ⟨rfl, h.1, h.2.symm⟩
  | some v =>
    cases v with
    | arr xs2 => simp [hl] at h; exact Or.inl ⟨by rw [h.1], h.2.symm⟩
    | str s2 => simp [hl] at h
    | bool b => simp [hl] at h
    | table s => simp [hl] at h
    | aot ts => simp [hl] at h

theorem getArray_error (t : Tbl) (k : String) (e : Err)
    (h : getArray t k = .error e) : e = .typeMismatch := by
  unfold getArray setdefault at h
  cases hl : lookup t k with
  | none => simp [hl] at h
  | some v => cases v <;> simp [hl] at h <;> exact h.symm

theorem getAoT_present (t : Tbl) (k : String) (xs : List Value)
    (h : lookup t k = some (.aot xs)) : getAoT t k = .ok (xs, t) := by
  simp [getAoT, setdefault, h]

theorem getAoT_absent (t : Tbl) (k : String) (h : lookup t k = none) :
    getAoT t k = .ok ([], t ++ [(k, .aot [])]) := by
  simp [getAoT, setdefault, h]

theorem getAoT_mismatch (t : Tbl) (k : String) (v : Value)
    (h : lookup t k = some v) (hv : ∀ xs, v ≠ .aot xs) :
    getAoT t k = .error .typeMismatch := by
  cases v with
  | aot ts => exact absurd rfl (hv ts)
  | str s => simp [getAoT, setdefault, h]
  | bool b => simp [getAoT, setdefault, h]
  | table s => simp [getAoT, setdefault, h]
  | arr xs => simp [getAoT, setdefault, h]

theorem getAoT_cases (t : Tbl) (k : String) (xs : List Value) (t1 : Tbl)
    (h : getAoT t k = .ok (xs, t1)) :
    (lookup t k = some (.aot xs) ∧ t1 = t) ∨
      (lookup t k = none ∧ xs = [] ∧ t1 = t ++ [(k, .aot [])]) := by
  unfold getAoT setdefault at h
  cases hl : lookup t k with
  | none =>
    simp [hl] at h
    exact Or.inr ⟨rfl, h.1, h.2.symm⟩
  | some v =>
    cases v with
    | aot ts => simp [hl] at h; exact Or.inl ⟨by rw [h.1], h.2.symm⟩
    | str s2 => simp [hl] at h
    | bool b => simp [hl] at h
    | table s => simp [hl] at h
    | arr xs2 => simp [hl] at h

theorem getAoT_error (t : Tbl) (k : String) (e : Err)
    (h : getAoT t k = .error e) : e = .typeMismatch := by
  unfold getAoT setdefault at h
  cases hl : lookup t k with
  | none => simp [hl] at h
  | some v => cases v <;> simp [hl] at h <;> exact h.symm

/-- Lookup of a key in the updated parent returned by `getTable` finds the
returned sub-table. -/
theorem getTable_lookup_self (t : Tbl) (k : String) (s t1 : Tbl)
    (h : getTable t k = .ok (s, t1)) : lookup t1 k = some (.table s) := by
  rcases getTable_cases t k s t1 h with ⟨h1, h2⟩ | ⟨h1, h2, h3⟩
  · rw [h2]; exact h1
  · rw [h3, h2]; exact lookup_append_self t k _ h1

/-- Lookups at other keys are unchanged by `getTable`. -/
theorem getTable_lookup_ne (t : Tbl) (k k2 : String) (s t1 : Tbl)
    (h : getTable t k = .ok (s, t1)) (hk : k ≠ k2) :
    lookup t1 k2 = lookup t k2 := by
  rcases getTable_cases t k s t1 h with ⟨_, h2⟩ | ⟨_, _, h3⟩
  · rw [h2]
  · rw [h3]; exact lookup_append_ne t k k2 _ hk

theorem getArray_lookup_ne (t : Tbl) (k k2 : String) (xs : List Value) (t1 : Tbl)
    (h : getArray t k = .ok (xs, t1)) (hk : k ≠ k2) :
    lookup t1 k2 = lookup t k2 := by
  rcases getArray_cases t k xs t1 h with ⟨_, h2⟩ | ⟨_, _, h3⟩
  · rw [h2]
  · rw [h3]; exact lookup_append_ne t k k2 _ hk


/-- Postcondition established by the baseline normalization: the build-system
table carries the fixed backend fields and the project table the pinned
requires-python value. -/
def baselineProp (v : String) (d : Tbl) : Prop :=
  ∃ bs proj,
    lookup d "build-system" = some (.table bs) ∧
    lookup bs "build-backend" = some (.str "uv_build") ∧
    lookup bs "requires" = some (.arr [.str "uv_build"]) ∧
    lookup d "project" = some (.table proj) ∧
    lookup proj "requires-python" = some (.str (">= " ++ v))

theorem baseline_spec (v : String) (d d1 : Tbl) (h : baseline v d = .ok d1) :
    baselineProp v d1 := by
  unfold baseline at h
  cases hg1 : getTable d "build-system" with
  | error e => simp [hg1, bind, Except.bind] at h
  | ok p =>
    obtain ⟨bs0, dA⟩ := p
    simp only [hg1, bind, Except.bind] at h
    cases hg2 : getTable
        (setKey dA "build-system"
          (.table (setKey (setKey bs0 "build-backend" (.str "uv_build"))
            "requires" (.arr [.str "uv_build"])))) "project" with
    | error e => simp [hg2] at h
    | ok q =>
      obtain ⟨p0, dB⟩ := q
      simp only [hg2, pure, Except.pure, Except.ok.injEq] at h
      subst h
      refine ⟨setKey (setKey bs0 "build-backend" (.str "uv_build")) "requires"
        (.arr [.str "uv_build"]), setKey p0 "requires-python" (.str (">= " ++ v)),
        ?_, ?_, ?_, ?_, ?_⟩
      · rw [lookup_setKey_ne _ _ _ _ (by decide)]
        rw [getTable_lookup_ne _ _ _ _ _ hg2 (by decide)]
        exact lookup_setKey_self _ _ _
      · rw [lookup_setKey_ne _ _ _ _ (by decide)]
        exact lookup_setKey_self _ _ _
      · exact lookup_setKey_self _ _ _
      · exact lookup_setKey_self _ _ _
      · exact lookup_setKey_self _ _ _

theorem baseline_fixed (v : String) (d : Tbl) (h : baselineProp v d) :
    baseline v d = .ok d := by
  obtain ⟨bs, proj, h1, h2, h3, h4, h5⟩ := h
  have g1 := getTable_present d "build-system" bs h1
  have e2 := setKey_self bs "build-backend" _ h2
  have e3 := setKey_self bs "requires" _ h3
  have e4 := setKey_self d "build-system" (.table bs) (by rw [h1])
  have g2 := getTable_present d "project" proj h4
  have e5 := setKey_self proj "requires-python" _ h5
  have e6 := setKey_self d "project" (.table proj) (by rw [h4])
  simp [baseline, g1, e2, e3, e4, g2, e5, e6, bind, Except.bind, pure, Except.pure]

theorem baseline_lookup_ne (v : String) (d d1 : Tbl) (k : String)
    (h : baseline v d = .ok d1) (hk1 : k ≠ "build-system") (hk2 : k ≠ "project") :
    lookup d1 k = lookup d k := by
  unfold baseline at h
  cases hg1 : getTable d "build-system" with
  | error e => simp [hg1, bind, Except.bind] at h
  | ok p =>
    obtain ⟨bs0, dA⟩ := p
    simp only [hg1, bind, Except.bind] at h
    cases hg2 : getTable
        (setKey dA "build-system"
          (.table (setKey (setKey bs0 "build-backend" (.str "uv_build"))
            "requires" (.arr [.str "uv_build"])))) "project" with
    | error e => simp [hg2] at h
    | ok q =>
      obtain ⟨p0, dB⟩ := q
      simp only [hg2, pure, Except.pure, Except.ok.injEq] at h
      subst h
      rw [lookup_setKey_ne _ _ _ _ (Ne.symm hk2)]
      rw [getTable_lookup_ne _ _ _ _ _ hg2 (Ne.symm hk2)]
      rw [lookup_setKey_ne _ _ _ _ (Ne.symm hk1)]
      exact getTable_lookup_ne _ _ _ _ _ hg1 (Ne.symm hk1)

/-- A document satisfying the baseline postcondition keeps satisfying it
after any step that preserves the top-level `build-system` and `project`
bindings. -/
theorem baselineProp_of_lookup_eq (v : String) (d d1 : Tbl)
    (hb : lookup d1 "build-system" = lookup d "build-system")
    (hp : lookup d1 "project" = lookup d "project")
    (h : baselineProp v d) : baselineProp v d1 := by
  obtain ⟨bs, proj, h1, h2, h3, h4, h5⟩ := h
  exact ⟨bs, proj, by rw [hb, h1], h2, h3, by rw [hp, h4], h5⟩

/-- Postcondition established by the dev dependency group recipe body. -/
def devProp (d : Tbl) : Prop :=
  ∃ dg dev, lookup d "dependency-groups" = some (.table dg) ∧
    lookup dg "dev" = some (.arr dev) ∧
    Value.str "dycw-utilities[test]" ∈ dev ∧ Value.str "rich" ∈ dev

theorem addDependencyGroupsDev_spec (d d1 : Tbl)
    (h : addDependencyGroupsDev d = .ok d1) :
    devProp d1 ∧ ∀ k, k ≠ "dependency-groups" → lookup d1 k = lookup d k := by
  unfold addDependencyGroupsDev at h
  cases hg1 : getTable d "dependency-groups" with
  | error e => simp [hg1, bind, Except.bind] at h
  | ok p =>
    obtain ⟨dg0, dA⟩ := p
    simp only [hg1, bind, Except.bind] at h
    cases hg2 : getArray dg0 "dev" with
    | error e => simp [hg2] at h
    | ok q =>
      obtain ⟨dev0, dgA⟩ := q
      simp only [hg2, pure, Except.pure, Except.ok.injEq] at h
      subst h
      constructor
      · refine ⟨_, _, lookup_setKey_self _ _ _, lookup_setKey_self _ _ _, ?_, ?_⟩
        · by_cases hc1 : Value.str "dycw-utilities[test]" ∈ dev0 <;>
            by_cases hc2 :
              Value.str "rich" ∈ (if Value.str "dycw-utilities[test]" ∈ dev0
                then dev0 else dev0 ++ [Value.str "dycw-utilities[test]"]) <;>
            simp_all
        · by_cases hc2 :
            Value.str "rich" ∈ (if Value.str "dycw-utilities[test]" ∈ dev0
              then dev0 else dev0 ++ [Value.str "dycw-utilities[test]"]) <;>
          simp_all
      · intro k hk
        rw [lookup_setKey_ne _ _ _ _ (Ne.symm hk)]
        exact getTable_lookup_ne _ _ _ _ _ hg1 (Ne.symm hk)

theorem addDependencyGroupsDev_fixed (d : Tbl) (h : devProp d) :
    addDependencyGroupsDev d = .ok d := by
  obtain ⟨dg, dev, h1, h2, h3, h4⟩ := h
  have g1 := getTable_present d "dependency-groups" dg h1
  have g2 := getArray_present dg "dev" dev h2
  have e1 := setKey_self dg "dev" (.arr dev) h2
  have e2 := setKey_self d "dependency-groups" (.table dg) (by rw [h1])
  simp [addDependencyGroupsDev, g1, g2, h3, h4, e1, e2, bind, Except.bind,
    pure, Except.pure]

/-- Postcondition established by the project name recipe body. -/
def nameProp (n : String) (d : Tbl) : Prop :=
  ∃ p, lookup d "project" = some (.table p) ∧ lookup p "name" = some (.str n)

theorem addProjectName_spec (n : String) (d d1 : Tbl)
    (h : addProjectName n d = .ok d1) : nameProp n d1 := by
  unfold addProjectName at h
  cases hg1 : getTable d "project" with
  | error e => simp [hg1, bind, Except.bind] at h
  | ok p =>
    obtain ⟨p0, dA⟩ := p
    simp only [hg1, bind, Except.bind, pure, Except.pure, Except.ok.injEq] at h
    subst h
    exact ⟨_, lookup_setKey_self _ _ _, lookup_setKey_self _ _ _⟩

theorem addProjectName_fixed (n : String) (d : Tbl) (h : nameProp n d) :
    addProjectName n d = .ok d := by
  obtain ⟨p, h1, h2⟩ := h
  have g1 := getTable_present d "project" p h1
  have e1 := setKey_self p "name" (.str n) h2
  have e2 := setKey_self d "project" (.table p) (by rw [h1])
  simp [addProjectName, g1, e1, e2, bind, Except.bind, pure, Except.pure]

theorem addProjectName_preserves_baselineProp (v n : String) (d d1 : Tbl)
    (h : addProjectName n d = .ok d1) (hb : baselineProp v d) :
    baselineProp v d1 := by
  obtain ⟨bs, proj, h1, h2, h3, h4, h5⟩ := hb
  unfold addProjectName at h
  rw [getTable_present d "project" proj h4] at h
  simp only [bind, Except.bind, pure, Except.pure, Except.ok.injEq] at h
  subst h
  refine ⟨bs, setKey proj "name" (.str n), ?_, h2, h3, ?_, ?_⟩
  · rw [lookup_setKey_ne _ _ _ _ (by decide)]; exact h1
  · exact lookup_setKey_self _ _ _
  · rw [lookup_setKey_ne _ _ _ _ (by decide)]; exact h5

/-- Postcondition established by the optional scripts dependency recipe body. -/
def scriptsProp (d : Tbl) : Prop :=
  ∃ p od sc, lookup d "project" = some (.table p) ∧
    lookup p "optional-dependencies" = some (.table od) ∧
    lookup od "scripts" = some (.arr sc) ∧
    Value.str "click >=8.3.1" ∈ sc

theorem addOptionalDependenciesScripts_spec (d d1 : Tbl)
    (h : addOptionalDependenciesScripts d = .ok d1) : scriptsProp d1 := by
  unfold addOptionalDependenciesScripts at h
  cases hg1 : getTable d "project" with
  | error e => simp [hg1, bind, Except.bind] at h
  | ok p =>
    obtain ⟨p0, dA⟩ := p
    simp only [hg1, bind, Except.bind] at h
    cases hg2 : getTable p0 "optional-dependencies" with
    | error e => simp [hg2] at h
    | ok q =>
      obtain ⟨od0, pA⟩ := q
      simp only [hg2] at h
      cases hg3 : getArray od0 "scripts" with
      | error e => simp [hg3] at h
      | ok r =>
        obtain ⟨sc0, odA⟩ := r
        simp only [hg3, pure, Except.pure, Except.ok.injEq] at h
        subst h
        refine ⟨_, _, _, lookup_setKey_self _ _ _, lookup_setKey_self _ _ _,
          lookup_setKey_self _ _ _, ?_⟩
        by_cases hc : Value.str "click >=8.3.1" ∈ sc0 <;> simp [hc]

theorem addOptionalDependenciesScripts_fixed (d : Tbl) (h : scriptsProp d) :
    addOptionalDependenciesScripts d = .ok d := by
  obtain ⟨p, od, sc, h1, h2, h3, h4⟩ := h
  have g1 := getTable_present d "project" p h1
  have g2 := getTable_present p "optional-dependencies" od h2
  have g3 := getArray_present od "scripts" sc h3
  have e1 := setKey_self od "scripts" (.arr sc) h3
  have e2 := setKey_self p "optional-dependencies" (.table od) (by rw [h2])
  have e3 := setKey_self d "project" (.table p) (by rw [h1])
  simp [addOptionalDependenciesScripts, g1, g2, g3, h4, e1, e2, e3,
    bind, Except.bind, pure, Except.pure]

theorem addOptionalDependenciesScripts_preserves_baselineProp (v : String)
    (d d1 : Tbl) (h : addOptionalDependenciesScripts d = .ok d1)
    (hb : baselineProp v d) : baselineProp v d1 := by
  obtain ⟨bs, proj, h1, h2, h3, h4, h5⟩ := hb
  unfold addOptionalDependenciesScripts at h
  rw [getTable_present d "project" proj h4] at h
  simp only [bind, Except.bind] at h
  cases hg2 : getTable proj "optional-dependencies" with
  | error e => simp [hg2] at h
  | ok q =>
    obtain ⟨od0, pA⟩ := q
    simp only [hg2] at h
    cases hg3 : getArray od0 "scripts" with
    | error e => simp [hg3] at h
    | ok r =>
      obtain ⟨sc0, odA⟩ := r
      simp only [hg3, pure, Except.pure, Except.ok.injEq] at h
      subst h
      refine ⟨bs, _, ?_, h2, h3, lookup_setKey_self _ _ _, ?_⟩
      · rw [lookup_setKey_ne _ _ _ _ (by decide)]; exact h1
      · rw [lookup_setKey_ne _ _ _ _ (by decide)]
        rw [getTable_lookup_ne _ _ _ _ _ hg2 (by decide)]
        exact h5

/-- Sub-table of `d` at `k` when `d[k]` is a table, else the empty table. -/
def tblAt (d : Tbl) (k : String) : Tbl :=
  match lookup d k with
  | some (.table s) => s
  | _ => []

/-- Element list of `d` at `k` when `d[k]` is an array of tables, else empty. -/
def aotAt (d : Tbl) (k : String) : List Value :=
  match lookup d k with
  | some (.aot xs) => xs
  | _ => []

/-- The entries of `tool.uv.index` seen by the package index recipe: absent
levels count as empty. -/
def uvIndexes (d : Tbl) : List Value :=
  aotAt (tblAt (tblAt d "tool") "uv") "index"

theorem getTable_sub_eq (t : Tbl) (k : String) (s t1 : Tbl)
    (h : getTable t k = .ok (s, t1)) : s = tblAt t k := by
  rcases getTable_cases t k s t1 h with ⟨h1, _⟩ | ⟨h1, h2, _⟩
  · simp [tblAt, h1]
  · simp [tblAt, h1, h2]

theorem getAoT_sub_eq (t : Tbl) (k : String) (xs : List Value) (t1 : Tbl)
    (h : getAoT t k = .ok (xs, t1)) : xs = aotAt t k := by
  rcases getAoT_cases t k xs t1 h with ⟨h1, _⟩ | ⟨h1, h2, _⟩
  · simp [aotAt, h1]
  · simp [aotAt, h1, h2]

theorem addUvIndex_spec (n u : String) (d d1 : Tbl)
    (h : addUvIndex n u d = .ok d1) :
    (∃ tl uv, lookup d1 "tool" = some (.table tl) ∧
      lookup tl "uv" = some (.table uv) ∧
      lookup uv "index" = some (.aot (if uvIndexTable n u ∈ uvIndexes d
        then uvIndexes d else uvIndexes d ++ [uvIndexTable n u]))) ∧
    (∀ k, k ≠ "tool" → lookup d1 k = lookup d k) := by
  unfold addUvIndex at h
  cases hg1 : getTable d "tool" with
  | error e => simp [hg1, bind, Except.bind] at h
  | ok p =>
    obtain ⟨tool0, dA⟩ := p
    simp only [hg1, bind, Except.bind] at h
    cases hg2 : getTable tool0 "uv" with
    | error e => simp [hg2] at h
    | ok q =>
      obtain ⟨uv0, toolA⟩ := q
      simp only [hg2] at h
      cases hg3 : getAoT uv0 "index" with
      | error e => simp [hg3] at h
      | ok r =>
        obtain ⟨idx0, uvA⟩ := r
        simp only [hg3, pure, Except.pure, Except.ok.injEq] at h
        subst h
        have hidx : idx0 = uvIndexes d := by
          rw [getAoT_sub_eq _ _ _ _ hg3, getTable_sub_eq _ _ _ _ hg2,
            getTable_sub_eq _ _ _ _ hg1]
          rfl
        subst hidx
        constructor
        · exact ⟨_, _, lookup_setKey_self _ _ _, lookup_setKey_self _ _ _,
            lookup_setKey_self _ _ _⟩
        · intro k hk
          rw [lookup_setKey_ne _ _ _ _ (Ne.symm hk)]
          exact getTable_lookup_ne _ _ _ _ _ hg1 (Ne.symm hk)

/-- Postcondition established by the package index recipe body. -/
def uvProp (n u : String) (d : Tbl) : Prop :=
  ∃ tl uv idx, lookup d "tool" = some (.table tl) ∧
    lookup tl "uv" = some (.table uv) ∧
    lookup uv "index" = some (.aot idx) ∧ uvIndexTable n u ∈ idx

theorem addUvIndex_fixed (n u : String) (d : Tbl) (h : uvProp n u d) :
    addUvIndex n u d = .ok d := by
  obtain ⟨tl, uv, idx, h1, h2, h3, h4⟩ := h
  have g1 := getTable_present d "tool" tl h1
  have g2 := getTable_present tl "uv" uv h2
  have g3 := getAoT_present uv "index" idx h3
  have e1 := setKey_self uv "index" (.aot idx) h3
  have e2 := setKey_self tl "uv" (.table uv) (by rw [h2])
  have e3 := setKey_self d "tool" (.table tl) (by rw [h1])
  simp [addUvIndex, g1, g2, g3, h4, e1, e2, e3, bind, Except.bind,
    pure, Except.pure]

/-- Idempotence of every recipe as an in-memory document transformation:
rerunning the baseline normalization plus recipe body on its own output is
the identity. -/
theorem recipeApply_idem (r : Recipe) (v : String) (d d1 : Tbl)
    (h : recipeApply r v d = .ok d1) : recipeApply r v d1 = .ok d1 := by
  unfold recipeApply at h ⊢
  cases hb : baseline v d with
  | error e => rw [hb] at h; simp [bind, Except.bind] at h
  | ok dm =>
    rw [hb] at h
    simp only [bind, Except.bind] at h
    have hbp := baseline_spec v d dm hb
    cases r with
    | pyproject =>
      simp only [Recipe.body, Except.ok.injEq] at h
      subst h
      rw [baseline_fixed v dm hbp]
      simp [Recipe.body, bind, Except.bind]
    | dependencyGroupsDev =>
      simp only [Recipe.body] at h
      obtain ⟨hdev, hpres⟩ := addDependencyGroupsDev_spec dm d1 h
      have hb1 : baselineProp v d1 := baselineProp_of_lookup_eq v dm d1
        (hpres _ (by decide)) (hpres _ (by decide)) hbp
      rw [baseline_fixed v d1 hb1]
      simp [Recipe.body, bind, Except.bind, addDependencyGroupsDev_fixed d1 hdev]
    | projectName n =>
      simp only [Recipe.body] at h
      have hname := addProjectName_spec n dm d1 h
      have hb1 : baselineProp v d1 :=
        addProjectName_preserves_baselineProp v n dm d1 h hbp
      rw [baseline_fixed v d1 hb1]
      simp [Recipe.body, bind, Except.bind, addProjectName_fixed n d1 hname]
    | optionalDependenciesScripts =>
      simp only [Recipe.body] at h
      have hsc := addOptionalDependenciesScripts_spec dm d1 h
      have hb1 : baselineProp v d1 :=
        addOptionalDependenciesScripts_preserves_baselineProp v dm d1 h hbp
      rw [baseline_fixed v d1 hb1]
      simp [Recipe.body, bind, Except.bind,
        addOptionalDependenciesScripts_fixed d1 hsc]
    | uvIndex n u =>
      simp only [Recipe.body] at h
      obtain ⟨⟨tl, uv, htl, huv, hidx⟩, hpres⟩ := addUvIndex_spec n u dm d1 h
      have hb1 : baselineProp v d1 := baselineProp_of_lookup_eq v dm d1
        (hpres _ (by decide)) (hpres _ (by decide)) hbp
      have hmem : uvIndexTable n u ∈ (if uvIndexTable n u ∈ uvIndexes dm
          then uvIndexes dm else uvIndexes dm ++ [uvIndexTable n u]) := by
        by_cases hc : uvIndexTable n u ∈ uvIndexes dm <;> simp [hc]
      have hu : uvProp n u d1 := ⟨tl, uv, _, htl, huv, hidx, hmem⟩
      rw [baseline_fixed v d1 hb1]
      simp [Recipe.body, bind, Except.bind, addUvIndex_fixed n u d1 hu]

/-- Clean completion of a recipe session: the outcome is fully determined by
the comparison between the transformed document and the first read. -/
theorem session_run_eq (v : String) (r : Recipe) (fs : FileState) (d0 d1 : Tbl)
    (h0 : getDoc fs = .ok d0) (h1 : recipeApply r v d0 = .ok d1) :
    runPyprojectSession v r.body fs =
      if d1 = d0 then ⟨fs, false, none⟩ else ⟨.content d1, true, none⟩ := by
  unfold recipeApply at h1
  cases hb : baseline v d0 with
  | error e => rw [hb] at h1; simp [bind, Except.bind] at h1
  | ok dm =>
    rw [hb] at h1
    simp only [bind, Except.bind] at h1
    unfold runPyprojectSession sessionRun sessionExit
    simp only [h0, hb, h1]

/-- An error anywhere in a session leaves the file untouched and unwritten. -/
theorem session_error_no_write (v : String) (body : Tbl → Except Err Tbl)
    (fs : FileState) (e : Err)
    (h : (runPyprojectSession v body fs).error = some e) :
    runPyprojectSession v body fs = ⟨fs, false, some e⟩ := by
  unfold runPyprojectSession sessionRun sessionExit at h ⊢
  cases h0 : getDoc fs with
  | error e2 => simp_all
  | ok d0 =>
    cases hb : baseline v d0 with
    | error e2 => simp_all
    | ok dm =>
      cases hbody : body dm with
      | error e2 => simp_all
      | ok d1 =>
        simp only [h0, hb, hbody] at h ⊢
        by_cases hc : d1 = d0 <;> simp_all

/-- An error raised by the recipe body aborts the session: no write, file
state unchanged, error propagated. -/
theorem session_body_error (v : String) (body : Tbl → Except Err Tbl)
    (fs : FileState) (d0 dm : Tbl) (e : Err)
    (h0 : getDoc fs = .ok d0) (hb : baseline v d0 = .ok dm)
    (hbody : body dm = .error e) :
    runPyprojectSession v body fs = ⟨fs, false, some e⟩ := by
  unfold runPyprojectSession sessionRun
  simp only [h0, hb, hbody]

/-- Running the same recipe session again on its own output never writes. -/
theorem session_second_no_write (v : String) (r : Recipe) (fs : FileState)
    (d0 d1 : Tbl) (h0 : getDoc fs = .ok d0) (h1 : recipeApply r v d0 = .ok d1) :
    (runPyprojectSession v r.body (runPyprojectSession v r.body fs).fs).wrote
      = false := by
  have e1 := session_run_eq v r fs d0 d1 h0 h1
  by_cases hc : d1 = d0
  · have hfs : (runPyprojectSession v r.body fs).fs = fs := by rw [e1]; simp [hc]
    rw [hfs, e1]
    simp [hc]
  · have hfs : (runPyprojectSession v r.body fs).fs = .content d1 := by
      rw [e1]; simp [hc]
    rw [hfs]
    have h1i := recipeApply_idem r v d0 d1 h1
    have e2 := session_run_eq v r (.content d1) d1 d1 rfl h1i
    rw [e2]
    simp

/-- The pre-yield part of the ruff session fails whenever the loaded document
has no `ingore` key under `lint`: with the key-lookup error if every touched
location has a compatible type, otherwise with a type mismatch. -/
theorem ruffPreYield_fails (v : String) (d : Tbl)
    (hno : ∀ l, lookup d "lint" = some (.table l) → lookup l "ingore" = none) :
    ruffPreYield v d = .error (.keyNotFound "ingore") ∨
      ruffPreYield v d = .error .typeMismatch := by
  unfold ruffPreYield
  cases hf : getTable (setKey (setKey d "target-version"
      (.str ("py" ++ v.replace "." ""))) "unsafe-fixes" (.bool true)) "format" with
  | error e =>
    right
    have he := getTable_error _ _ _ hf
    subst he
    simp [hf, bind, Except.bind]
  | ok p =>
    obtain ⟨fmt0, dB⟩ := p
    simp only [hf, bind, Except.bind]
    cases hl : getTable (setKey dB "format" (.table (setKey (setKey fmt0 "preview"
        (.bool true)) "skip-magic-trailing-comma" (.bool true)))) "lint" with
    | error e =>
      right
      have he := getTable_error _ _ _ hl
      subst he
      simp [hl]
    | ok q =>
      obtain ⟨lint0, dD⟩ := q
      simp only [hl]
      have hlint0 : lookup lint0 "ingore" = none := by
        have hchain : lookup (setKey dB "format" (.table (setKey (setKey fmt0
            "preview" (.bool true)) "skip-magic-trailing-comma" (.bool true))))
            "lint" = lookup d "lint" := by
          rw [lookup_setKey_ne _ _ _ _ (by decide)]
          rw [getTable_lookup_ne _ _ _ _ _ hf (by decide)]
          rw [lookup_setKey_ne _ _ _ _ (by decide)]
          rw [lookup_setKey_ne _ _ _ _ (by decide)]
        rcases getTable_cases _ _ _ _ hl with ⟨h1, _⟩ | ⟨_, h2, _⟩
        · exact hno lint0 (by rw [← hchain, h1])
        · rw [h2]; rfl
      cases ha : getArray (setKey lint0 "explicit-preview-rules" (.bool true))
          "fixable" with
      | error e =>
        right
        have he := getArray_error _ _ _ ha
        subst he
        simp [ha]
      | ok r =>
        obtain ⟨fx0, lintA⟩ := r
        simp only [ha]
        left
        have hlA : lookup lintA "ingore" = none := by
          rw [getArray_lookup_ne _ _ _ _ _ ha (by decide)]
          rw [lookup_setKey_ne _ _ _ _ (by decide)]
          exact hlint0
        have hlB : lookup (setKey lintA "fixable" (.arr [.str "ALL"])) "ingore"
            = none := by
          rw [lookup_setKey_ne _ _ _ _ (by decide)]
          exact hlA
        simp [hlB]

/-- The ruff session never modifies the ruff file: its only write statement
targets the pyproject file. -/
theorem runRuffSession_ruffFs (v : String) (body : Tbl → Except Err Tbl)
    (rf pf : FileState) : (runRuffSession v body rf pf).ruffFs = rf := by
  unfold runRuffSession
  repeat' split
  all_goals rfl

/-- A ruff session over a document with no `lint.ingore` key aborts before
yielding: no write, both files unchanged, and the error is the `ingore`
key lookup failure or a type mismatch from an earlier accessor. -/
theorem ruff_session_aborts (v : String) (body : Tbl → Except Err Tbl)
    (rf pf : FileState) (d : Tbl) (h0 : getDoc rf = .ok d)
    (hno : ∀ l, lookup d "lint" = some (.table l) → lookup l "ingore" = none) :
    (runRuffSession v body rf pf).wrote = false ∧
    (runRuffSession v body rf pf).ruffFs = rf ∧
    (runRuffSession v body rf pf).pyprojectFs = pf ∧
    ((runRuffSession v body rf pf).error = some (.keyNotFound "ingore") ∨
      (runRuffSession v body rf pf).error = some .typeMismatch) := by
  rcases ruffPreYield_fails v d hno with hp | hp <;>
    unfold runRuffSession <;> simp [h0, hp]

/-- The index-flag loop of `main` only ever queues pyproject sessions. -/
theorem mainIndexLoop_no_ruff (acc : List MainAction) (l : List String)
    (h : MainAction.ruffSession ∉ acc) :
    MainAction.ruffSession ∉ (mainIndexLoop acc l).1 := by
  induction l generalizing acc with
  | nil => simpa [mainIndexLoop] using h
  | cons idx rest ih =>
    unfold mainIndexLoop
    cases hsp : idx.splitOn "," with
    | nil => simpa using h
    | cons a t =>
      cases t with
      | nil => simpa using h
      | cons b t2 =>
        cases t2 with
        | nil =>
          exact ih _ (by simp [List.mem_append, h])
        | cons c t3 => simpa using h

/-- No value of the settings makes `main` queue a ruff session. -/
theorem mainActions_no_ruff (s : Settings) :
    MainAction.ruffSession ∉ (mainActions s).1 := by
  unfold mainActions
  cases hd : s.dry_run with
  | true => simp
  | false =>
    cases h5 : s.pyproject__tool__uv__indexes with
    | none =>
      simp only [h5, Bool.false_eq_true, if_false]
      cases h1 : s.pyproject <;> cases h2 : s.pyproject__dependency_groups__dev <;>
        cases h3 : s.pyproject__project__name <;>
        cases h4 : s.pyproject__project__optional_dependencies__scripts <;>
        simp
    | some str =>
      simp only [h5, Bool.false_eq_true, if_false]
      apply mainIndexLoop_no_ruff
      cases h1 : s.pyproject <;> cases h2 : s.pyproject__dependency_groups__dev <;>
        cases h3 : s.pyproject__project__name <;>
        cases h4 : s.pyproject__project__optional_dependencies__scripts <;>
        simp

/-- The `ruff` flag has no influence on what `main` does. -/
theorem mainActions_ruff_irrelevant (s : Settings) (b : Bool) :
    mainActions { s with ruff := b } = mainActions s := by
  cases s
  rfl

/-- Effect of the package index recipe (baseline plus body) on the
`tool.uv.index` entries: the candidate table is appended exactly when no
deeply equal entry is present. -/
theorem recipeApply_uvIndex_spec (n u v : String) (d d1 : Tbl)
    (h : recipeApply (.uvIndex n u) v d = .ok d1) :
    uvIndexes d1 = (if uvIndexTable n u ∈ uvIndexes d then uvIndexes d
      else uvIndexes d ++ [uvIndexTable n u]) := by
  unfold recipeApply at h
  cases hb : baseline v d with
  | error e => rw [hb] at h; simp [bind, Except.bind] at h
  | ok dm =>
    rw [hb] at h
    simp only [bind, Except.bind, Recipe.body] at h
    obtain ⟨⟨tl, uv2, htl, huv, hidx⟩, _⟩ := addUvIndex_spec n u dm d1 h
    have htool : lookup dm "tool" = lookup d "tool" :=
      baseline_lookup_ne v d dm "tool" hb (by decide) (by decide)
    have hdm : uvIndexes dm = uvIndexes d := by
      have ht : tblAt dm "tool" = tblAt d "tool" := by unfold tblAt; rw [htool]
      unfold uvIndexes
      rw [ht]
    have h1 : tblAt d1 "tool" = tl := by unfold tblAt; rw [htl]
    have h2 : tblAt tl "uv" = uv2 := by unfold tblAt; rw [huv]
    have h3 : uvIndexes d1 = (if uvIndexTable n u ∈ uvIndexes dm
        then uvIndexes dm else uvIndexes dm ++ [uvIndexTable n u]) := by
      show aotAt (tblAt (tblAt d1 "tool") "uv") "index" = _
      rw [h1, h2]
      show (match lookup uv2 "index" with
        | some (.aot xs) => xs
        | _ => []) = _
      rw [hidx]
    rw [h3, hdm]

/-- Document produced by the baseline normalization from an empty document
with version 3.14. -/
def samplePyDoc : Tbl :=
  [("build-system", .table [("build-backend", .str "uv_build"),
      ("requires", .arr [.str "uv_build"])]),
   ("project", .table [("requires-python", .str ">= 3.14")])]

/-- Document produced by the dev dependency group recipe from an empty
document with version 3.14. -/
def sampleDevDoc : Tbl :=
  samplePyDoc ++
    [("dependency-groups", .table [("dev",
      .arr [.str "dycw-utilities[test]", .str "rich"])])]

/-- Document produced by the package index recipe for name a, url x from an
empty document. -/
def sampleUvDoc1 : Tbl :=
  samplePyDoc ++
    [("tool", .table [("uv", .table [("index", .aot [uvIndexTable "a" "x"])])])]

/-- Document produced by then running the package index recipe for name a,
url y on `sampleUvDoc1`. -/
def sampleUvDoc2 : Tbl :=
  samplePyDoc ++
    [("tool", .table [("uv", .table [("index",
      .aot [uvIndexTable "a" "x", uvIndexTable "a" "y"])])])]

/-- Claim C1: for every mutation recipe R of the catalog (ensure build
backend, ensure dev dependency group, ensure project name, ensure optional
scripts dependency, ensure package index with fixed parameters) and every
starting Document D, applying R twice yields the same Document as applying
it once: when R(D) succeeds with output D1, R(D1) succeeds and returns D1
unchanged. -/
theorem claim1_recipe_idempotent (r : Recipe) (v : String) (d d1 : Tbl)
    (h : recipeApply r v d = .ok d1) : recipeApply r v d1 = .ok d1 :=
  recipeApply_idem r v d d1 h

theorem claim1_recipe_idempotent_witness :
    recipeApply .dependencyGroupsDev "3.14" sampleDevDoc = .ok sampleDevDoc :=
  claim1_recipe_idempotent .dependencyGroupsDev "3.14" [] sampleDevDoc (by decide)

/-- Claim C2: for every recipe session whose body completes cleanly, the
target file is written at most once, at scope exit: no write when the
in-memory document equals the re-read of the file, exactly one write of the
in-memory document when they differ; and running the same recipe again on
the resulting file state never writes. -/
theorem claim2_session_write_once (v : String) (r : Recipe) (fs : FileState)
    (d0 d1 : Tbl) (h0 : getDoc fs = .ok d0) (h1 : recipeApply r v d0 = .ok d1) :
    runPyprojectSession v r.body fs =
      (if d1 = d0 then ⟨fs, false, none⟩ else ⟨.content d1, true, none⟩) ∧
    (runPyprojectSession v r.body (runPyprojectSession v r.body fs).fs).wrote
      = false :=
  ⟨session_run_eq v r fs d0 d1 h0 h1, session_second_no_write v r fs d0 d1 h0 h1⟩

theorem claim2_session_write_once_witness :
    (runPyprojectSession "3.14" (Recipe.body .pyproject) .missing =
      (if samplePyDoc = ([] : Tbl) then ⟨.missing, false, none⟩
        else ⟨.content samplePyDoc, true, none⟩)) ∧
    (runPyprojectSession "3.14" (Recipe.body .pyproject)
      (runPyprojectSession "3.14" (Recipe.body .pyproject) .missing).fs).wrote
      = false :=
  claim2_session_write_once "3.14" .pyproject .missing [] samplePyDoc rfl
    (by decide)

/-- Claim C3: an error raised inside the recipe body (for example a type
mismatch while navigating the document) aborts the session with no write:
the file state is returned unmodified, and since the erroring session leaves
its input state untouched, the effects of sessions that already completed
are unaffected. -/
theorem claim3_body_error_no_write (v : String) (body : Tbl → Except Err Tbl)
    (fs : FileState) (d0 dm : Tbl) (e : Err)
    (h0 : getDoc fs = .ok d0) (hb : baseline v d0 = .ok dm)
    (hbody : body dm = .error e) :
    runPyprojectSession v body fs = ⟨fs, false, some e⟩ :=
  session_body_error v body fs d0 dm e h0 hb hbody

theorem claim3_body_error_no_write_witness :
    runPyprojectSession "3.14" (Recipe.body .dependencyGroupsDev)
      (.content [("dependency-groups", .str "x")]) =
    ⟨.content [("dependency-groups", .str "x")], false, some .typeMismatch⟩ :=
  claim3_body_error_no_write "3.14" (Recipe.body .dependencyGroupsDev)
    (.content [("dependency-groups", .str "x")])
    [("dependency-groups", .str "x")]
    ([("dependency-groups", .str "x")] ++ samplePyDoc) .typeMismatch rfl
    (by decide) (by decide)

/-- Claim C4: every pyproject session, whatever recipe body it runs, applies
the baseline normalization before the body: the session factors through the
baseline-normalized document, which has `build-system.build-backend`,
`build-system.requires` and `project.requires-python` set to the fixed
values. -/
theorem claim4_baseline_every_session (v : String)
    (body : Tbl → Except Err Tbl) (fs : FileState) (d0 d1 : Tbl)
    (h0 : getDoc fs = .ok d0) (hb : baseline v d0 = .ok d1) :
    runPyprojectSession v body fs = sessionRun body fs d1 ∧
    ∃ bs proj, lookup d1 "build-system" = some (.table bs) ∧
      lookup bs "build-backend" = some (.str "uv_build") ∧
      lookup bs "requires" = some (.arr [.str "uv_build"]) ∧
      lookup d1 "project" = some (.table proj) ∧
      lookup proj "requires-python" = some (.str (">= " ++ v)) := by
  constructor
  · unfold runPyprojectSession
    simp only [h0, hb]
  · exact baseline_spec v d0 d1 hb

theorem claim4_baseline_every_session_witness :
    (runPyprojectSession "3.14" (Recipe.body .pyproject) .missing =
      sessionRun (Recipe.body .pyproject) .missing samplePyDoc) ∧
    ∃ bs proj, lookup samplePyDoc "build-system" = some (.table bs) ∧
      lookup bs "build-backend" = some (.str "uv_build") ∧
      lookup bs "requires" = some (.arr [.str "uv_build"]) ∧
      lookup samplePyDoc "project" = some (.table proj) ∧
      lookup proj "requires-python" = some (.str (">= " ++ "3.14")) :=
  claim4_baseline_every_session "3.14" (Recipe.body .pyproject) .missing []
    samplePyDoc rfl (by decide)

/-- Claim C5: each path accessor returns the existing value when it has the
expected kind, creates, inserts and returns an empty container when the key
is absent, fails with a type mismatch when the key holds a value of another
kind instead of overwriting it, and never changes the parent when the key
already has a value. -/
theorem claim5_path_accessors (t : Tbl) (k : String) :
    (∀ s, lookup t k = some (.table s) → getTable t k = .ok (s, t)) ∧
    (lookup t k = none → getTable t k = .ok ([], t ++ [(k, .table [])]) ∧
      lookup (t ++ [(k, .table [])]) k = some (.table [])) ∧
    (∀ w, lookup t k = some w → (∀ s, w ≠ .table s) →
      getTable t k = .error .typeMismatch) ∧
    (∀ s t1, getTable t k = .ok (s, t1) → ∀ w, lookup t k = some w → t1 = t) ∧
    (∀ xs, lookup t k = some (.arr xs) → getArray t k = .ok (xs, t)) ∧
    (lookup t k = none → getArray t k = .ok ([], t ++ [(k, .arr [])]) ∧
      lookup (t ++ [(k, .arr [])]) k = some (.arr [])) ∧
    (∀ w, lookup t k = some w → (∀ xs, w ≠ .arr xs) →
      getArray t k = .error .typeMismatch) ∧
    (∀ xs t1, getArray t k = .ok (xs, t1) → ∀ w, lookup t k = some w → t1 = t) ∧
    (∀ xs, lookup t k = some (.aot xs) → getAoT t k = .ok (xs, t)) ∧
    (lookup t k = none → getAoT t k = .ok ([], t ++ [(k, .aot [])]) ∧
      lookup (t ++ [(k, .aot [])]) k = some (.aot [])) ∧
    (∀ w, lookup t k = some w → (∀ xs, w ≠ .aot xs) →
      getAoT t k = .error .typeMismatch) ∧
    (∀ xs t1, getAoT t k = .ok (xs, t1) → ∀ w, lookup t k = some w → t1 = t) := by
  refine ⟨fun s h => getTable_present t k s h,
    fun h => ⟨getTable_absent t k h, lookup_append_self t k _ h⟩,
    fun w h hw => getTable_mismatch t k w h hw,
    ?_,
    fun xs h => getArray_present t k xs h,
    fun h => ⟨getArray_absent t k h, lookup_append_self t k _ h⟩,
    fun w h hw => getArray_mismatch t k w h hw,
    ?_,
    fun xs h => getAoT_present t k xs h,
    fun h => ⟨getAoT_absent t k h, lookup_append_self t k _ h⟩,
    fun w h hw => getAoT_mismatch t k w h hw,
    ?_⟩
  · intro s t1 hget w hw
    rcases getTable_cases t k s t1 hget with ⟨_, h2⟩ | ⟨h1, _, _⟩
    · exact h2
    · rw [h1] at hw; exact Option.noConfusion hw
  · intro xs t1 hget w hw
    rcases getArray_cases t k xs t1 hget with ⟨_, h2⟩ | ⟨h1, _, _⟩
    · exact h2
    · rw [h1] at hw; exact Option.noConfusion hw
  · intro xs t1 hget w hw
    rcases getAoT_cases t k xs t1 hget with ⟨_, h2⟩ | ⟨h1, _, _⟩
    · exact h2
    · rw [h1] at hw; exact Option.noConfusion hw

theorem claim5_path_accessors_witness :
    getTable [("k", Value.bool true)] "k" = .error .typeMismatch ∧
    getArray ([] : Tbl) "dev" = .ok ([], [("dev", .arr [])]) ∧
    getAoT [("i", Value.aot [])] "i" = .ok ([], [("i", .aot [])]) :=
  ⟨(claim5_path_accessors [("k", .bool true)] "k").2.2.1 (.bool true)
      (by decide) (by intro s h; cases h),
   ((claim5_path_accessors [] "dev").2.2.2.2.2.1 (by decide)).1,
   (claim5_path_accessors [("i", .aot [])] "i").2.2.2.2.2.2.2.2.1 []
      (by decide)⟩

/-- Claim C6: the package index recipe appends its candidate table to
`tool.uv.index` exactly when no deeply equal table is present; a second run
with the same name and url changes nothing (so the pair of runs appends
exactly one table), and a further run with the same name but a different url
appends a second, distinct table. -/
theorem claim6_uv_index_dedup (v n u u2 : String) (d d1 d2 d3 : Tbl)
    (hu : u ≠ u2)
    (h1 : recipeApply (.uvIndex n u) v d = .ok d1)
    (h2 : recipeApply (.uvIndex n u) v d1 = .ok d2)
    (h3 : recipeApply (.uvIndex n u2) v d2 = .ok d3) :
    uvIndexes d1 = (if uvIndexTable n u ∈ uvIndexes d then uvIndexes d
      else uvIndexes d ++ [uvIndexTable n u]) ∧
    d2 = d1 ∧
    uvIndexes d3 = (if uvIndexTable n u2 ∈ uvIndexes d2 then uvIndexes d2
      else uvIndexes d2 ++ [uvIndexTable n u2]) ∧
    uvIndexTable n u ≠ uvIndexTable n u2 ∧
    (uvIndexTable n u ∉ uvIndexes d →
      (uvIndexes d1).count (uvIndexTable n u)
        = (uvIndexes d).count (uvIndexTable n u) + 1) := by
  have hidem := recipeApply_idem (.uvIndex n u) v d d1 h1
  have hd21 : d2 = d1 := by
    rw [hidem] at h2
    exact ((Except.ok.injEq _ _).mp h2).symm
  refine ⟨recipeApply_uvIndex_spec n u v d d1 h1, hd21,
    recipeApply_uvIndex_spec n u2 v d2 d3 h3, ?_, ?_⟩
  · simp [uvIndexTable, hu]
  · intro hni
    rw [recipeApply_uvIndex_spec n u v d d1 h1, if_neg hni]
    simp [List.count_append]

theorem claim6_uv_index_dedup_witness :
    uvIndexes sampleUvDoc1 =
      (if uvIndexTable "a" "x" ∈ uvIndexes ([] : Tbl) then uvIndexes ([] : Tbl)
        else uvIndexes ([] : Tbl) ++ [uvIndexTable "a" "x"]) ∧
    sampleUvDoc1 = sampleUvDoc1 ∧
    uvIndexes sampleUvDoc2 =
      (if uvIndexTable "a" "y" ∈ uvIndexes sampleUvDoc1 then uvIndexes sampleUvDoc1
        else uvIndexes sampleUvDoc1 ++ [uvIndexTable "a" "y"]) ∧
    uvIndexTable "a" "x" ≠ uvIndexTable "a" "y" ∧
    (uvIndexTable "a" "x" ∉ uvIndexes ([] : Tbl) →
      (uvIndexes sampleUvDoc1).count (uvIndexTable "a" "x")
        = (uvIndexes ([] : Tbl)).count (uvIndexTable "a" "x") + 1) :=
  claim6_uv_index_dedup "3.14" "a" "x" "y" [] sampleUvDoc1 sampleUvDoc1
    sampleUvDoc2 (by decide) (by decide) (by decide) (by decide)

/-- Claim C7: the document store returns a new empty document for a missing
file (never an error), returns the parsed document for a readable file, and
propagates a parse error for a malformed existing file. -/
theorem claim7_document_store :
    getDoc .missing = .ok ([] : Tbl) ∧
    getDoc .malformed = .error .parseError ∧
    ∀ d : Tbl, getDoc (.content d) = .ok d :=
  ⟨rfl, rfl, fun _ => rfl⟩

/-- Claim C8 concerns the code as written: `main` has no branch reading the
`ruff` flag, so the flag never influences the queued sessions, no value of
the settings runs a ruff session, and supplying only the `ruff` flag runs
nothing at all. -/
theorem claim8_ruff_flag_ignored :
    (∀ (s : Settings) (b : Bool), mainActions { s with ruff := b } = mainActions s) ∧
    (∀ s : Settings, MainAction.ruffSession ∉ (mainActions s).1) ∧
    mainActions { ruff := true } = ([], none) :=
  ⟨mainActions_ruff_irrelevant, mainActions_no_ruff, by decide⟩

/-- Claim C9 concerns the code as written: the ruff session never writes the
ruff file under any circumstances, and on an input where it completes
cleanly with a difference, the write lands on the pyproject file instead. -/
theorem claim9_ruff_write_goes_to_pyproject :
    (∀ (v : String) (body : Tbl → Except Err Tbl) (rf pf : FileState),
      (runRuffSession v body rf pf).ruffFs = rf) ∧
    (runRuffSession "3.14" (fun d => .ok d)
        (.content [("lint", .table [("ingore", .arr [])])]) .missing).wrote
      = true ∧
    (runRuffSession "3.14" (fun d => .ok d)
        (.content [("lint", .table [("ingore", .arr [])])]) .missing).pyprojectFs
      ≠ .missing :=
  ⟨runRuffSession_ruffFs, by decide, by decide⟩

/-- Claim C10 as stated is false: when the on-disk lint configuration
already contains a `lint.ingore` key, the session completes cleanly and even
writes (to the pyproject file). -/
theorem claim10_counterexample :
    (runRuffSession "3.14" (fun d => .ok d)
        (.content [("lint", .table [("ingore", .arr [])])]) .missing).error
      = none ∧
    (runRuffSession "3.14" (fun d => .ok d)
        (.content [("lint", .table [("ingore", .arr [])])]) .missing).wrote
      = true := by decide

/-- Claim C10, amended: for every version string and every on-disk state of
the lint-configuration file whose document has no `ingore` key under `lint`
(in particular a missing file), the session fails before yielding — with the
`ingore` key-lookup error when the touched locations have compatible types,
otherwise with a type mismatch — so it never completes cleanly and never
writes any file. -/
theorem claim10_session_never_completes (v : String)
    (body : Tbl → Except Err Tbl) (rf pf : FileState) (d : Tbl)
    (h0 : getDoc rf = .ok d)
    (hno : ∀ l, lookup d "lint" = some (.table l) → lookup l "ingore" = none) :
    (runRuffSession v body rf pf).wrote = false ∧
    (runRuffSession v body rf pf).ruffFs = rf ∧
    (runRuffSession v body rf pf).pyprojectFs = pf ∧
    ((runRuffSession v body rf pf).error = some (.keyNotFound "ingore") ∨
      (runRuffSession v body rf pf).error = some .typeMismatch) :=
  ruff_session_aborts v body rf pf d h0 hno

theorem claim10_session_never_completes_witness :
    (runRuffSession "3.14" (fun d => .ok d) .missing .missing).wrote = false ∧
    (runRuffSession "3.14" (fun d => .ok d) .missing .missing).ruffFs
      = .missing ∧
    (runRuffSession "3.14" (fun d => .ok d) .missing .missing).pyprojectFs
      = .missing ∧
    ((runRuffSession "3.14" (fun d => .ok d) .missing .missing).error
        = some (.keyNotFound "ingore") ∨
      (runRuffSession "3.14" (fun d => .ok d) .missing .missing).error
        = some .typeMismatch) :=
  claim10_session_never_completes "3.14" (fun d => .ok d) .missing .missing []
    rfl (by intro l hl; simp [lookup] at hl)

end Conformalize
